import Mathlib

/-!
Verification of the encrypted key-value store of the repository
(file src/i18n/lang/_sidle.py) against its natural-language specification.

Shallow embedding conventions:

* Python byte strings are `List Nat` (each element a byte value).
* Python text strings are also represented by the `List Nat` of their UTF-8
  bytes; UTF-8 decoding (Python `bytes.decode`) is modelled by the
  `utf8Valid` check, since UTF-8 encoding is injective.
* The AES block cipher (an external library, pycryptodome) is abstracted as a
  pair of functions `E`, `D` on 16-byte blocks; theorems that depend on it
  take the hypotheses that `D` inverts `E` and that `E` preserves block
  length, which hold for AES under every key.  The SHA-256 key derivation
  only selects which permutation pair is used, so quantifying over all
  inverse pairs covers all passwords.
* CBC mode, the custom padding, and all the store logic are translated
  directly from the source.
* Python exceptions are modelled with `Except Err`.
* Per-call random initialization vectors are passed as explicit arguments.
-/

/-- Exception kinds raised by the Python source: PasswordError (raised on a
UnicodeDecodeError while decoding decrypted bytes), TypeError, ValueError,
IndexError, the ValueError or SyntaxError raised by ast.literal_eval on
non-literal input, and RecursionError. -/
inductive Err where
  | password
  | typeErr
  | valueErr
  | indexErr
  | parseErr
  | recursion
deriving DecidableEq

/-- Bytewise xor of two byte strings, truncating to the shorter one (the
CBC combination step; operands always have equal block length here). -/
def xorBytes (a b : List Nat) : List Nat := List.zipWith (· ^^^ ·) a b

/-- Split a byte string into chunks of 16 bytes (the AES block size), the
way the block cipher consumes its input.  Fuel-based so that the kernel can
evaluate it; the fuel is always instantiated with the length of the list. -/
def chunksGo : Nat → List Nat → List (List Nat)
  | _, [] => []
  | 0, a :: l => [a :: l]
  | f + 1, a :: l => (a :: l).take 16 :: chunksGo f ((a :: l).drop 16)

/-- Chunks of 16 bytes of a byte string. -/
def chunks16 (l : List Nat) : List (List Nat) := chunksGo l.length l

/-- CBC encryption of a list of plaintext blocks: each block is xored with
the previous ciphertext block (initially the IV) and then enciphered. -/
def cbcEncBlocks (E : List Nat → List Nat) : List Nat → List (List Nat) → List (List Nat)
  | _, [] => []
  | prev, b :: bs =>
    E (xorBytes b prev) :: cbcEncBlocks E (E (xorBytes b prev)) bs

/-- CBC decryption of a list of ciphertext blocks: each block is deciphered
and xored with the previous ciphertext block (initially the IV). -/
def cbcDecBlocks (D : List Nat → List Nat) : List Nat → List (List Nat) → List (List Nat)
  | _, [] => []
  | prev, c :: cs => xorBytes (D c) prev :: cbcDecBlocks D c cs

/-- CBC-mode encryption of a padded byte string under block cipher E. -/
def cbcEncrypt (E : List Nat → List Nat) (iv pt : List Nat) : List Nat :=
  (cbcEncBlocks E iv (chunks16 pt)).flatten

/-- CBC-mode decryption of a ciphertext byte string under block cipher D. -/
def cbcDecrypt (D : List Nat → List Nat) (iv ct : List Nat) : List Nat :=
  (cbcDecBlocks D iv (chunks16 ct)).flatten

/-- Translation of SidleEncryption.pad_string (chunk_size = AES.block_size
= 16): the first byte of the result stores the pad amount
to_pad = (16 - (len(string) + 1)) mod 16 computed with the Python modulo
of a possibly negative number, and to_pad zero bytes are appended. -/
def SidleEncryption.pad_string (s : List Nat) : List Nat :=
  let to_pad : Nat := ((16 - ((s.length : Int) + 1)) % 16).toNat
  to_pad :: s ++ List.replicate to_pad 0

/-- Translation of SidleEncryption.unpad_string: read the pad amount from
the first byte; if it is zero, return the string UNCHANGED (the source
keeps the leading pad byte in this case); otherwise return string[1:-to_pad]
(Python slicing clamps to the empty string when to_pad is too large).
Indexing string[0] on an empty input raises IndexError. -/
def SidleEncryption.unpad_string (s : List Nat) : Except Err (List Nat) :=
  match s with
  | [] => .error .indexErr
  | to_pad :: rest =>
    if to_pad = 0 then .ok (to_pad :: rest)
    else .ok (rest.take (rest.length - to_pad))

/-- Validity of a continuation byte of a UTF-8 sequence. -/
def utf8Cont (c : Nat) : Bool := 0x80 ≤ c && c ≤ 0xBF

/-- Range check for the first continuation byte of a 3-byte UTF-8 sequence,
which depends on the leading byte (excludes overlong forms and surrogates). -/
def utf8Cont2 (c c1 : Nat) : Bool :=
  if c = 0xE0 then 0xA0 ≤ c1 && c1 ≤ 0xBF
  else if c = 0xED then 0x80 ≤ c1 && c1 ≤ 0x9F
  else utf8Cont c1

/-- Range check for the first continuation byte of a 4-byte UTF-8 sequence,
which depends on the leading byte (excludes overlong forms and values above
U+10FFFF). -/
def utf8Cont3 (c c1 : Nat) : Bool :=
  if c = 0xF0 then 0x90 ≤ c1 && c1 ≤ 0xBF
  else if c = 0xF4 then 0x80 ≤ c1 && c1 ≤ 0x8F
  else utf8Cont c1

/-- Strict UTF-8 validity of a byte string; models whether Python
bytes.decode("utf-8") succeeds (decoding itself is the identity under our
representation of text as its UTF-8 bytes). -/
def utf8Valid : List Nat → Bool
  | [] => true
  | c :: rest =>
    if c ≤ 0x7F then utf8Valid rest
    else if c ≤ 0xC1 then false
    else if c ≤ 0xDF then
      match rest with
      | c1 :: r => utf8Cont c1 && utf8Valid r
      | [] => false
    else if c ≤ 0xEF then
      match rest with
      | c1 :: c2 :: r => utf8Cont2 c c1 && utf8Cont c2 && utf8Valid r
      | _ => false
    else if c ≤ 0xF4 then
      match rest with
      | c1 :: c2 :: c3 :: r => utf8Cont3 c c1 && utf8Cont c2 && utf8Cont c3 && utf8Valid r
      | _ => false
    else false

/-- Translation of SidleEncryption.encrypt: pad the plaintext, CBC-encrypt
it under the derived key (abstracted as E) with a random IV (passed
explicitly), and prepend the IV. -/
def SidleEncryption.encrypt (E : List Nat → List Nat) (iv s : List Nat) : List Nat :=
  iv ++ cbcEncrypt E iv (SidleEncryption.pad_string s)

/-- Shared tail of SidleEncryption.decrypt: unpad the recovered buffer and
decode it as UTF-8, turning a UnicodeDecodeError into PasswordError. -/
def unpadGate (s : List Nat) : Except Err (List Nat) :=
  match SidleEncryption.unpad_string s with
  | .error e => .error e
  | .ok un => if utf8Valid un then .ok un else .error .password

/-- Translation of SidleEncryption.decrypt: split off the 16-byte IV,
CBC-decrypt the rest under the derived key (abstracted as D), unpad, and
UTF-8-decode.  AES.new raises ValueError when fewer than 16 bytes are
available for the IV, and the CBC decryptor raises ValueError when the
ciphertext length is not a multiple of 16. -/
def SidleEncryption.decrypt (D : List Nat → List Nat) (blob : List Nat) : Except Err (List Nat) :=
  if blob.length < 16 then .error .valueErr
  else if (blob.length - 16) % 16 ≠ 0 then .error .valueErr
  else unpadGate (cbcDecrypt D (blob.take 16) (blob.drop 16))

/-!
Python literal values.  The store serializes its entry list with str() and
parses it back with ast.literal_eval (both from the Python standard
library); the following is a model of those two external functions on the
literal shapes that can occur here: integers, byte strings, text strings,
tuples and lists.  A mutual inductive (instead of a nested one) keeps all
recursions structural so that the kernel can evaluate them.
-/

mutual
/-- Python literal values: int, bytes, str, tuple, list. -/
inductive PyLit where
  | int (n : Int)
  | bytes (b : List Nat)
  | str (s : List Nat)
  | tuple (xs : PyLitList)
  | list (xs : PyLitList)
/-- List of Python literal values. -/
inductive PyLitList where
  | nil
  | cons (x : PyLit) (xs : PyLitList)
end

/-- Conversion from a Lean list of literals. -/
def PyLitList.ofList : List PyLit → PyLitList
  | [] => .nil
  | x :: xs => .cons x (PyLitList.ofList xs)

/-- Lowercase hexadecimal digit, as Python repr uses in \x escapes. -/
def hexDigit (n : Nat) : Nat := if n < 10 then 0x30 + n else 0x57 + n

/-- Quote character chosen by Python repr for a string: single quote,
unless the content contains a single quote and no double quote. -/
def reprQuote (b : List Nat) : Nat :=
  if b.contains 0x27 && !(b.contains 0x22) then 0x22 else 0x27

/-- Escaping of one byte inside a Python bytes repr with quote character q:
backslash and the quote are backslash-escaped, tab, newline and carriage
return use their short escapes, printable ASCII is kept, and everything
else becomes a lowercase \xhh escape. -/
def escBytesChar (q c : Nat) : List Nat :=
  if c = 0x5C then [0x5C, 0x5C]
  else if c = q then [0x5C, q]
  else if c = 0x09 then [0x5C, 0x74]
  else if c = 0x0A then [0x5C, 0x6E]
  else if c = 0x0D then [0x5C, 0x72]
  else if 0x20 ≤ c && c ≤ 0x7E then [c]
  else [0x5C, 0x78, hexDigit (c / 16), hexDigit (c % 16)]

/-- Repr of a bytes object: a b prefix, the chosen quote, the escaped
content, and the closing quote. -/
def bytesRepr (b : List Nat) : List Nat :=
  let q := reprQuote b
  0x62 :: q :: (b.flatMap (escBytesChar q)) ++ [q]

/-- Escaping of one byte inside a Python str repr: like the bytes case for
ASCII; bytes at 0x80 and above belong to multibyte UTF-8 characters, which
Python shows literally when printable (the only case arising here). -/
def escStrChar (q c : Nat) : List Nat :=
  if c = 0x5C then [0x5C, 0x5C]
  else if c = q then [0x5C, q]
  else if c = 0x09 then [0x5C, 0x74]
  else if c = 0x0A then [0x5C, 0x6E]
  else if c = 0x0D then [0x5C, 0x72]
  else if c < 0x20 || c = 0x7F then [0x5C, 0x78, hexDigit (c / 16), hexDigit (c % 16)]
  else [c]

/-- Repr of a text string. -/
def strRepr (s : List Nat) : List Nat :=
  let q := reprQuote s
  q :: (s.flatMap (escStrChar q)) ++ [q]

/-- Decimal repr of an integer. -/
def intRepr (n : Int) : List Nat :=
  if n < 0 then 0x2D :: (Nat.toDigits 10 n.natAbs).map Char.toNat
  else (Nat.toDigits 10 n.toNat).map Char.toNat

mutual
/-- Model of Python str()/repr() on a literal value.  str() on a list calls
repr on every element, which is how SidleData.raw serializes self._list. -/
def pyRepr : PyLit → List Nat
  | .int n => intRepr n
  | .bytes b => bytesRepr b
  | .str s => strRepr s
  | .tuple .nil => [0x28, 0x29]
  | .tuple (.cons x .nil) => 0x28 :: pyRepr x ++ [0x2C, 0x29]
  | .tuple (.cons x (.cons y ys)) => 0x28 :: pyReprSep (.cons x (.cons y ys)) ++ [0x29]
  | .list xs => 0x5B :: pyReprSep xs ++ [0x5D]
/-- Comma-and-space separated reprs of the elements of a collection. -/
def pyReprSep : PyLitList → List Nat
  | .nil => []
  | .cons x .nil => pyRepr x
  | .cons x (.cons y ys) => pyRepr x ++ [0x2C, 0x20] ++ pyReprSep (.cons y ys)
end

/-- Digit test for ASCII bytes. -/
def isDigit (c : Nat) : Bool := 0x30 ≤ c && c ≤ 0x39

/-- Whitespace skipping, as the Python parser does between tokens. -/
def skipWs : List Nat → List Nat
  | [] => []
  | c :: r =>
    if c = 0x20 || c = 0x09 || c = 0x0A || c = 0x0D || c = 0x0C || c = 0x0B then skipWs r
    else c :: r

/-- Accumulating decimal-digit reader. -/
def parseDigitsGo (acc : Nat) : List Nat → Nat × List Nat
  | [] => (acc, [])
  | c :: r => if isDigit c then parseDigitsGo (acc * 10 + (c - 0x30)) r else (acc, c :: r)

/-- Value of one hexadecimal digit byte. -/
def hexVal (c : Nat) : Option Nat :=
  if 0x30 ≤ c && c ≤ 0x39 then some (c - 0x30)
  else if 0x61 ≤ c && c ≤ 0x66 then some (c - 0x57)
  else if 0x41 ≤ c && c ≤ 0x46 then some (c - 0x37)
  else none

/-- Decoding of a short backslash escape; Python keeps the backslash and
the character for an unrecognized escape. -/
def escDecode (e : Nat) : List Nat :=
  if e = 0x6E then [0x0A]
  else if e = 0x74 then [0x09]
  else if e = 0x72 then [0x0D]
  else if e = 0x5C then [0x5C]
  else if e = 0x27 then [0x27]
  else if e = 0x22 then [0x22]
  else [0x5C, e]

/-- Body of a quoted string or bytes literal up to the closing quote q,
decoding \xhh and short escapes; a raw newline is a syntax error. -/
def parseStrBody (q : Nat) : Nat → List Nat → Option (List Nat × List Nat)
  | 0, _ => none
  | _ + 1, [] => none
  | fuel + 1, c :: r =>
    if c = q then some ([], r)
    else if c = 0x5C then
      match r with
      | [] => none
      | e :: r2 =>
        if e = 0x78 then
          match r2 with
          | h1 :: h2 :: r3 =>
            match hexVal h1, hexVal h2 with
            | some a, some b2 =>
              match parseStrBody q fuel r3 with
              | some (body, rest) => some ((16 * a + b2) :: body, rest)
              | none => none
            | _, _ => none
          | _ => none
        else
          match parseStrBody q fuel r2 with
          | some (body, rest) => some (escDecode e ++ body, rest)
          | none => none
    else if c = 0x0A then none
    else
      match parseStrBody q fuel r with
      | some (body, rest) => some (c :: body, rest)
      | none => none

/-- Parse jobs of the literal parser: a single literal, the elements of a
bracketed collection up to a closing byte, or the inside of parentheses
(which is a tuple or a parenthesized literal). -/
inductive PJob where
  | lit
  | elems (close : Nat)
  | paren

/-- Recursive-descent model of ast.literal_eval restricted to the literal
shapes occurring here (integers with optional sign, bytes and str
literals, lists, tuples, parenthesized values, trailing commas); fuel-based
single recursion so the kernel evaluates it.  The result of an elems job is
wrapped in PyLit.list. -/
def parseRun : Nat → PJob → List Nat → Option (PyLit × List Nat)
  | 0, _, _ => none
  | fuel + 1, .lit, s =>
    match skipWs s with
    | [] => none
    | c :: r =>
      if c = 0x2D then
        match parseRun fuel .lit r with
        | some (.int n, rest) => some (.int (-n), rest)
        | _ => none
      else if c = 0x2B then
        match parseRun fuel .lit r with
        | some (.int n, rest) => some (.int n, rest)
        | _ => none
      else if isDigit c then
        let p := parseDigitsGo 0 (c :: r)
        some (.int (Int.ofNat p.1), p.2)
      else if c = 0x62 then
        match r with
        | q :: r2 =>
          if q = 0x27 || q = 0x22 then
            match parseStrBody q fuel r2 with
            | some (b, rest) => some (.bytes b, rest)
            | none => none
          else none
        | [] => none
      else if c = 0x27 || c = 0x22 then
        match parseStrBody c fuel r with
        | some (b, rest) => some (.str b, rest)
        | none => none
      else if c = 0x5B then
        match parseRun fuel (.elems 0x5D) r with
        | some (.list xs, rest) => some (.list xs, rest)
        | _ => none
      else if c = 0x28 then parseRun fuel .paren r
      else none
  | fuel + 1, .elems close, s =>
    match skipWs s with
    | [] => none
    | c :: r =>
      if c = close then some (.list .nil, r)
      else
        match parseRun fuel .lit (c :: r) with
        | none => none
        | some (x, rest) =>
          match skipWs rest with
          | [] => none
          | c2 :: r2 =>
            if c2 = 0x2C then
              match parseRun fuel (.elems close) r2 with
              | some (.list xs, rest2) => some (.list (.cons x xs), rest2)
              | _ => none
            else if c2 = close then some (.list (.cons x .nil), r2)
            else none
  | fuel + 1, .paren, s =>
    match skipWs s with
    | [] => none
    | c :: r =>
      if c = 0x29 then some (.tuple .nil, r)
      else
        match parseRun fuel .lit (c :: r) with
        | none => none
        | some (x, rest) =>
          match skipWs rest with
          | [] => none
          | c2 :: r2 =>
            if c2 = 0x29 then some (x, r2)
            else if c2 = 0x2C then
              match parseRun fuel (.elems 0x29) r2 with
              | some (.list xs, rest2) => some (.tuple (.cons x xs), rest2)
              | _ => none
            else none

/-- Model of ast.literal_eval: parse one literal with trailing whitespace
allowed; anything else (including the empty string) is a ValueError or
SyntaxError, modelled as none. -/
def literal_eval (s : List Nat) : Option PyLit :=
  match parseRun (2 * s.length + 2) .lit s with
  | some (v, rest) => if (skipWs rest).isEmpty then some v else none
  | none => none

/-!
The in-memory encrypted record store SidleData.  Its _list holds pairs; a
pair component is a bytes ciphertext when it was produced by set, but add
appends its arguments untouched, and a file loaded with load can put any
literal there, so components are modelled as PyLit.
-/

/-- One entry of the record list of a SidleData store. -/
abbrev Entry := PyLit × PyLit

/-- Decryption of one entry component, as self._enc.decrypt does.  Only a
bytes value can be decrypted: on a str, AES.new rejects the sliced str IV
with a TypeError, and on any other value the slicing itself fails. -/
def decLit (D : List Nat → List Nat) : PyLit → Except Err (List Nat)
  | .bytes b => SidleEncryption.decrypt D b
  | _ => .error .typeErr

/-- ASCII lowercasing of a text string, modelling str.lower() on the ASCII
keys used by the store. -/
def asciiLower (s : List Nat) : List Nat :=
  s.map fun c => if 0x41 ≤ c && c ≤ 0x5A then c + 32 else c

/-- Decrypt every entry into a (key, value) pair of text strings, in order,
as the comprehension at the top of SidleData.__getitem__ and
SidleData.__delitem__ does; the first failing decrypt aborts. -/
def decPairs (D : List Nat → List Nat) : List Entry → Except Err (List (List Nat × List Nat))
  | [] => .ok []
  | (k, v) :: rest =>
    match decLit D k, decLit D v with
    | .ok dk, .ok dv =>
      match decPairs D rest with
      | .ok r => .ok ((dk, dv) :: r)
      | .error e => .error e
    | .error e, _ => .error e
    | .ok _, .error e => .error e

/-- Translation of SidleData.__getitem__ for a text key with the default
error=False: decrypt all entries, return the value of the first entry whose
decrypted key equals the key case-insensitively, and None when there is no
match (the int and slice branches of the dynamic dispatch are not part of
the claims).  KeyError is never raised because error is False. -/
def SidleData.getitem (D : List Nat → List Nat) (l : List Entry) (key : List Nat) :
    Except Err (Option (List Nat)) :=
  match decPairs D l with
  | .error e => .error e
  | .ok dec =>
    .ok ((dec.find? (fun p => asciiLower p.1 == asciiLower key)).map (fun p => p.2))

/-- Translation of SidleData.__contains__: call __getitem__ with its
default error=False and return False only on a KeyError.  Since error=False
never raises KeyError, a successful call always yields True, and any other
exception (from decryption) propagates. -/
def SidleData.contains (D : List Nat → List Nat) (l : List Entry) (key : List Nat) :
    Except Err Bool :=
  match SidleData.getitem D l key with
  | .error e => .error e
  | .ok _ => .ok true

/-- Scan of the loop in SidleData.set: find the index of the first entry
whose decrypted key equals the lowered key, decrypting each scanned key and
propagating decryption failures. -/
def findKeyIdx (D : List Nat → List Nat) (k : List Nat) : List Entry → Except Err (Option Nat)
  | [] => .ok none
  | (ko, _) :: rest =>
    match decLit D ko with
    | .error e => .error e
    | .ok dk =>
      if asciiLower dk == k then .ok (some 0)
      else
        match findKeyIdx D k rest with
        | .ok (some j) => .ok (some (j + 1))
        | r => r

/-- Predicate of the duplicate filter in SidleData.set, which computes
x[0].lower() != _k on the RAW entry component: on a bytes ciphertext the
comparison is bytes-versus-str and therefore always unequal (kept); on a
str it is a real case-insensitive comparison; any other component has no
lower() method and raises AttributeError. -/
def keyFilterKeep (k : List Nat) : PyLit → Except Err Bool
  | .bytes _ => .ok true
  | .str s => .ok (asciiLower s != k)
  | _ => .error .typeErr

/-- Filter applied by SidleData.set to the entries after the replaced one. -/
def filterTail (k : List Nat) : List Entry → Except Err (List Entry)
  | [] => .ok []
  | (x, v) :: rest =>
    match keyFilterKeep k x with
    | .error e => .error e
    | .ok keep =>
      match filterTail k rest with
      | .error e => .error e
      | .ok r => .ok (if keep then (x, v) :: r else r)

/-- Translation of SidleData.set: encrypt the key and the value with fresh
IVs, replace the first entry whose decrypted key matches case-insensitively
and re-assign the tail to the filtered remainder of the iterator, or append
when there is no match.  The initial `if self._list == None` branch of the
source is dead (the constructor always assigns a list) and is omitted. -/
def SidleData.set (E D : List Nat → List Nat) (ivk ivv : List Nat)
    (l : List Entry) (key value : List Nat) : Except Err (List Entry) :=
  let ek : PyLit := .bytes (SidleEncryption.encrypt E ivk key)
  let ev : PyLit := .bytes (SidleEncryption.encrypt E ivv value)
  match findKeyIdx D (asciiLower key) l with
  | .error e => .error e
  | .ok none => .ok (l ++ [(ek, ev)])
  | .ok (some i) =>
    match filterTail (asciiLower key) (l.drop (i + 1)) with
    | .error e => .error e
    | .ok kept => .ok ((l.set i (ek, ev)).take (i + 1) ++ kept)

/-- Translation of SidleData.add: append the arguments to the list exactly
as given, with no encryption and no uniqueness check. -/
def SidleData.add (l : List Entry) (key value : PyLit) : List Entry :=
  l ++ [(key, value)]

/-- Translation of SidleData.remove, which is __delitem__ with index=False:
decrypt every entry, keep the pairs whose decrypted key does not match the
key case-insensitively, and re-assign self._list to those DECRYPTED pairs
(the kept entries are plaintext str pairs, not the original ciphertexts). -/
def SidleData.remove (D : List Nat → List Nat) (l : List Entry) (key : List Nat) :
    Except Err (List Entry) :=
  match decPairs D l with
  | .error e => .error e
  | .ok dec =>
    .ok ((dec.filter (fun p => !(asciiLower p.1 == asciiLower key))).map
      (fun p => (PyLit.str p.1, PyLit.str p.2)))

/-- Translation of SidleData.keys: the first components of the entries,
exactly as stored. -/
def SidleData.keys (l : List Entry) : List PyLit := l.map (fun p => p.1)

/-- Translation of SidleData.load: decrypt the blob; when the decrypted
text is empty, call load again on the same data (the recursion terminates
only through the interpreter recursion limit, modelled by fuel), catching
only RecursionError; then hand the text to ast.literal_eval and store its
result as the record list without any shape validation.  The
isinstance(_, bytes) check of the source is dead because decrypt always
returns a str. -/
def SidleData.load (D : List Nat → List Nat) : Nat → List Nat → Except Err PyLit
  | fuel, data =>
    match SidleEncryption.decrypt D data with
    | .error e => .error e
    | .ok s =>
      let retry : Except Err Unit :=
        if s.isEmpty then
          match fuel with
          | 0 => .error .recursion
          | f + 1 =>
            match SidleData.load D f data with
            | .error .recursion => .ok ()
            | .error e => .error e
            | .ok _ => .ok ()
        else .ok ()
      match retry with
      | .error e => .error e
      | .ok () =>
        match literal_eval s with
        | some lit => .ok lit
        | none => .error .parseErr

/-- Unpacking of one element in a `for k, v in ...` loop: a 2-tuple or
2-list yields its components, a 2-byte bytes object yields two ints, and
everything else raises (ValueError for a wrong-length sequence, TypeError
for a non-iterable). -/
def pairOfLit : PyLit → Except Err Entry
  | .tuple (.cons a (.cons b .nil)) => .ok (a, b)
  | .list (.cons a (.cons b .nil)) => .ok (a, b)
  | .bytes [a, b] => .ok (.int a, .int b)
  | _ => .error .valueErr

/-- Unpacking of every element of a PyLitList. -/
def entriesOfPyList : PyLitList → Except Err (List Entry)
  | .nil => .ok []
  | .cons x rest =>
    match pairOfLit x with
    | .error e => .error e
    | .ok p =>
      match entriesOfPyList rest with
      | .error e => .error e
      | .ok r => .ok (p :: r)

/-- Iteration with pair unpacking over the object stored in self._list by
load, as every store method does with `for k, v in self._list`: lists and
tuples are iterated element-wise, anything else raises TypeError. -/
def entriesOfLit : PyLit → Except Err (List Entry)
  | .list xs => entriesOfPyList xs
  | .tuple xs => entriesOfPyList xs
  | _ => .error .typeErr

/-- The literal shape of an entry list, as held in self._list. -/
def litOfEntries (l : List Entry) : PyLit :=
  .list (PyLitList.ofList (l.map (fun p => PyLit.tuple (.cons p.1 (.cons p.2 .nil)))))

/-- Translation of the SidleData.raw property: encrypt str(self._list)
under the store password, with a fresh outer IV. -/
def SidleData.raw (E : List Nat → List Nat) (ivout : List Nat) (l : List Entry) : List Nat :=
  SidleEncryption.encrypt E ivout (pyRepr (litOfEntries l))

/-!
The Sidle facade binds the store to a file; the file content is carried as
an explicit List Nat state (empty list = the zero-length file created for a
missing path).  Each operation is a full read-modify-write cycle.
-/

/-- Translation of Sidle.insert (also Sidle.__setitem__): on an empty file,
set on the fresh empty store and save; otherwise load the file, set, and
save.  Saving writes SidleData.raw as the new full file content. -/
def Sidle.insert (E D : List Nat → List Nat) (ivk ivv ivout : List Nat) (fuel : Nat)
    (file : List Nat) (key value : List Nat) : Except Err (List Nat) :=
  if file.isEmpty then
    match SidleData.set E D ivk ivv [] key value with
    | .error e => .error e
    | .ok l => .ok (SidleData.raw E ivout l)
  else
    match SidleData.load D fuel file with
    | .error e => .error e
    | .ok lit =>
      match entriesOfLit lit with
      | .error e => .error e
      | .ok l =>
        match SidleData.set E D ivk ivv l key value with
        | .error e => .error e
        | .ok l2 => .ok (SidleData.raw E ivout l2)

/-- Translation of Sidle.__getitem__: None on an empty file; otherwise load
the file into the store and look the key up with SidleData.__getitem__. -/
def Sidle.getItem (D : List Nat → List Nat) (fuel : Nat) (file : List Nat) (key : List Nat) :
    Except Err (Option (List Nat)) :=
  if file.isEmpty then .ok none
  else
    match SidleData.load D fuel file with
    | .error e => .error e
    | .ok lit =>
      match entriesOfLit lit with
      | .error e => .error e
      | .ok l => SidleData.getitem D l key

/-!
Construction and copying of SidleData objects.  The constructor builds a
SidleEncryption from the password, and SidleEncryption.__init__ calls
convert_bytes on it; convert_bytes(value) encodes a str and otherwise
calls bytes(value, encoding="utf-8"), which raises TypeError for every
non-str argument (the encoding parameter is only allowed with str).
-/

/-- Values passed as the password argument of SidleData in the claims:
either a text password or, via copy(), the record list itself. -/
inductive PasswordV where
  | strPw (s : List Nat)
  | entriesPw (l : List Entry)

/-- Model of convert_bytes on a password: a str is UTF-8 encoded (identity
in our byte representation); bytes(list, encoding=...) raises TypeError. -/
def convert_bytes : PasswordV → Except Err (List Nat)
  | .strPw s => .ok s
  | .entriesPw _ => .error .typeErr

/-- An in-memory SidleData object: its password and its record list. -/
structure SidleDataObj where
  password : PasswordV
  entries : List Entry

/-- Translation of SidleData.__init__(password, data=None): the record list
is data when it is a non-empty list (Python truthiness) and empty
otherwise, and the constructor then builds SidleEncryption(password), whose
convert_bytes call raises TypeError unless the password is a str. -/
def SidleData.init (password : PasswordV) (data : Option (List Entry)) :
    Except Err SidleDataObj :=
  match convert_bytes password with
  | .error e => .error e
  | .ok _ =>
    .ok { password := password,
          entries := match data with
                     | some l => if l.isEmpty then [] else l
                     | none => [] }

/-- Translation of SidleData.copy: self.__class__(self._list) passes the
record list positionally as the password argument and no data argument. -/
def SidleData.copy (s : SidleDataObj) : Except Err SidleDataObj :=
  SidleData.init (.entriesPw s.entries) none

/-!
Lemmas: for any block cipher pair where D inverts E and E preserves length
(true of AES under every derived key), SidleEncryption.decrypt recovers
exactly the unpadded padded buffer of SidleEncryption.encrypt.
-/

theorem length_xorBytes (a b : List Nat) : (xorBytes a b).length = min a.length b.length :=
  List.length_zipWith _ _ _

theorem xorBytes_cancel (a b : List Nat) (h : a.length = b.length) :
    xorBytes (xorBytes a b) b = a := by
  induction a generalizing b with
  | nil => simp [xorBytes]
  | cons x xs ih =>
    cases b with
    | nil => simp at h
    | cons y ys =>
      simp only [xorBytes, List.zipWith_cons_cons] at *
      rw [Nat.xor_cancel_right, ih ys (by simp only [List.length_cons] at h; omega)]

theorem chunksGo_nil (f : Nat) : chunksGo f [] = [] := by
  cases f <;> rfl

theorem chunksGo_succ (f : Nat) (l : List Nat) (h : l ≠ []) :
    chunksGo (f + 1) l = l.take 16 :: chunksGo f (l.drop 16) := by
  cases l with
  | nil => exact absurd rfl h
  | cons a l => rfl

theorem chunksGo_flatten (f : Nat) (l : List Nat) (h : l.length ≤ f) :
    (chunksGo f l).flatten = l := by
  induction f generalizing l with
  | zero =>
    cases l with
    | nil => rfl
    | cons a l => simp at h
  | succ f ih =>
    cases l with
    | nil => rfl
    | cons a l =>
      rw [chunksGo_succ f (a :: l) (by simp), List.flatten_cons,
        ih ((a :: l).drop 16) (by rw [List.length_drop]; simp only [List.length_cons] at h ⊢; omega),
        List.take_append_drop]

theorem chunksGo_length16 (f : Nat) (l : List Nat) (h : l.length ≤ f)
    (hmod : l.length % 16 = 0) : ∀ b ∈ chunksGo f l, b.length = 16 := by
  induction f generalizing l with
  | zero =>
    cases l with
    | nil => intro b hb; simp [chunksGo_nil] at hb
    | cons a l => simp at h
  | succ f ih =>
    cases l with
    | nil => intro b hb; simp [chunksGo_nil] at hb
    | cons a l =>
      intro b hb
      rw [chunksGo_succ f (a :: l) (by simp), List.mem_cons] at hb
      have hge : 16 ≤ (a :: l).length := by
        have : (a :: l).length ≠ 0 := by simp
        omega
      rcases hb with rfl | hb
      · rw [List.length_take]; omega
      · exact ih ((a :: l).drop 16) (by rw [List.length_drop]; omega)
          (by rw [List.length_drop]; omega) b hb

theorem chunksGo_of_blocks (bs : List (List Nat)) :
    ∀ f, (∀ b ∈ bs, b.length = 16) → bs.flatten.length ≤ f →
    chunksGo f bs.flatten = bs := by
  induction bs with
  | nil => intro f _ _; rw [List.flatten_nil, chunksGo_nil]
  | cons b bs ih =>
    intro f hall hf
    have hb : b.length = 16 := hall b (List.mem_cons_self _ _)
    have hflen : (b :: bs).flatten.length = 16 + bs.flatten.length := by
      rw [List.flatten_cons, List.length_append, hb]
    cases f with
    | zero => omega
    | succ f =>
      have hne : (b :: bs).flatten ≠ [] := by
        intro hc
        have := congrArg List.length hc
        rw [hflen] at this
        simp at this
      rw [chunksGo_succ f _ hne, List.flatten_cons, List.take_left' hb, List.drop_left' hb,
        ih f (fun x hx => hall x (List.mem_cons_of_mem _ hx)) (by omega)]

theorem chunks16_flatten (l : List Nat) : (chunks16 l).flatten = l :=
  chunksGo_flatten _ _ (le_refl _)

theorem chunks16_of_blocks (bs : List (List Nat)) (h : ∀ b ∈ bs, b.length = 16) :
    chunks16 bs.flatten = bs :=
  chunksGo_of_blocks bs _ h (le_refl _)

theorem flatten_blocks_mod (bs : List (List Nat)) (h : ∀ b ∈ bs, b.length = 16) :
    bs.flatten.length % 16 = 0 := by
  induction bs with
  | nil => rfl
  | cons b bs ih =>
    rw [List.flatten_cons, List.length_append, h b (List.mem_cons_self _ _)]
    have := ih (fun x hx => h x (List.mem_cons_of_mem _ hx))
    omega

theorem cbcEncBlocks_length (E : List Nat → List Nat) (hlen : ∀ b, (E b).length = b.length)
    (bs : List (List Nat)) : ∀ prev, prev.length = 16 → (∀ b ∈ bs, b.length = 16) →
    ∀ c ∈ cbcEncBlocks E prev bs, c.length = 16 := by
  induction bs with
  | nil => intro prev _ _ c hc; simp [cbcEncBlocks] at hc
  | cons b bs ih =>
    intro prev hprev hall c hc
    have hb : b.length = 16 := hall b (List.mem_cons_self _ _)
    have hE : (E (xorBytes b prev)).length = 16 := by
      rw [hlen, length_xorBytes, hprev, hb]; exact min_self 16
    simp only [cbcEncBlocks, List.mem_cons] at hc
    rcases hc with rfl | hc
    · exact hE
    · exact ih _ hE (fun x hx => hall x (List.mem_cons_of_mem _ hx)) c hc

theorem cbcDecBlocks_cbcEncBlocks (E D : List Nat → List Nat) (hED : ∀ b, D (E b) = b)
    (hlen : ∀ b, (E b).length = b.length) (bs : List (List Nat)) :
    ∀ prev, prev.length = 16 → (∀ b ∈ bs, b.length = 16) →
    cbcDecBlocks D prev (cbcEncBlocks E prev bs) = bs := by
  induction bs with
  | nil => intro prev _ _; rfl
  | cons b bs ih =>
    intro prev hprev hall
    have hb : b.length = 16 := hall b (List.mem_cons_self _ _)
    have hE : (E (xorBytes b prev)).length = 16 := by
      rw [hlen, length_xorBytes, hprev, hb]; exact min_self 16
    simp only [cbcEncBlocks, cbcDecBlocks]
    rw [hED, xorBytes_cancel b prev (by rw [hb, hprev]),
      ih (E (xorBytes b prev)) hE (fun x hx => hall x (List.mem_cons_of_mem _ hx))]

theorem pad_string_length_mod (s : List Nat) :
    (SidleEncryption.pad_string s).length % 16 = 0 := by
  simp only [SidleEncryption.pad_string, List.length_cons, List.length_append,
    List.length_replicate]
  omega

/-- Main cipher lemma: for any inverse, length-preserving block cipher pair
and a 16-byte IV, decrypting an encryption yields exactly the unpadded
padded buffer passed through the UTF-8 gate. -/
theorem decrypt_encrypt (E D : List Nat → List Nat) (hED : ∀ b, D (E b) = b)
    (hlen : ∀ b, (E b).length = b.length) (iv : List Nat) (hiv : iv.length = 16)
    (s : List Nat) :
    SidleEncryption.decrypt D (SidleEncryption.encrypt E iv s) =
      unpadGate (SidleEncryption.pad_string s) := by
  have hpadmod := pad_string_length_mod s
  have hblocks : ∀ b ∈ chunks16 (SidleEncryption.pad_string s), b.length = 16 :=
    chunksGo_length16 _ _ (le_refl _) hpadmod
  have hencb : ∀ c ∈ cbcEncBlocks E iv (chunks16 (SidleEncryption.pad_string s)), c.length = 16 :=
    cbcEncBlocks_length E hlen _ iv hiv hblocks
  have hctmod : (cbcEncrypt E iv (SidleEncryption.pad_string s)).length % 16 = 0 :=
    flatten_blocks_mod _ hencb
  have hroundtrip :
      cbcDecrypt D iv (cbcEncrypt E iv (SidleEncryption.pad_string s)) =
        SidleEncryption.pad_string s := by
    unfold cbcDecrypt cbcEncrypt
    rw [chunks16_of_blocks _ hencb,
      cbcDecBlocks_cbcEncBlocks E D hED hlen _ iv hiv hblocks]
    exact chunks16_flatten _
  unfold SidleEncryption.encrypt SidleEncryption.decrypt
  rw [List.take_left' hiv, List.drop_left' hiv]
  have hlen2 : (iv ++ cbcEncrypt E iv (SidleEncryption.pad_string s)).length =
      16 + (cbcEncrypt E iv (SidleEncryption.pad_string s)).length := by
    rw [List.length_append, hiv]
  rw [if_neg (by omega), if_neg (by omega), hroundtrip]

/-- The cipher lemma transported to decLit, the per-component decryption
used by the store methods. -/
theorem decLit_encrypt (E D : List Nat → List Nat) (hED : ∀ b, D (E b) = b)
    (hlen : ∀ b, (E b).length = b.length) (iv : List Nat) (hiv : iv.length = 16)
    (s : List Nat) :
    decLit D (.bytes (SidleEncryption.encrypt E iv s)) =
      unpadGate (SidleEncryption.pad_string s) :=
  decrypt_encrypt E D hED hlen iv hiv s

/-!
Claim theorems.  Concrete byte strings used below: [107] is "k",
[107, 101] is "ke", [97] is "a", [98] is "b", [49] is "1",
[110, 101, 119] is "new", [116, 97, 103] is "tag", [122, 122, 122] is
"zzz", and List.replicate 15 97 is "aaaaaaaaaaaaaaa" (15 bytes).
-/

/-- Claim C1: the spec states that decrypt(encrypt(v, key), key) == v for
every password and every byte payload.  The code FAILS this for payloads
whose length is 15 mod 16: the pad amount is then 0 and unpad_string keeps
the leading pad byte, so decrypting an encryption of the 15-byte payload
"aaaaaaaaaaaaaaa" returns the payload with a spurious leading zero byte,
for every block cipher pair (hence every password and IV). -/
theorem C1_decrypt_encrypt_keeps_pad_byte (E D : List Nat → List Nat)
    (hED : ∀ b, D (E b) = b) (hlen : ∀ b, (E b).length = b.length)
    (iv : List Nat) (hiv : iv.length = 16) :
    SidleEncryption.decrypt D (SidleEncryption.encrypt E iv (List.replicate 15 97)) =
      .ok (0 :: List.replicate 15 97) ∧
    (0 :: List.replicate 15 97) ≠ List.replicate 15 97 := by
  refine ⟨?_, by decide⟩
  rw [decrypt_encrypt E D hED hlen iv hiv]
  rfl

/-- Witness for C1 at the identity block cipher and the all-zero IV. -/
theorem C1_decrypt_encrypt_keeps_pad_byte_witness :
    SidleEncryption.decrypt id (SidleEncryption.encrypt id (List.replicate 16 0)
      (List.replicate 15 97)) = .ok (0 :: List.replicate 15 97) ∧
    (0 :: List.replicate 15 97) ≠ List.replicate 15 97 :=
  C1_decrypt_encrypt_keeps_pad_byte id id (fun _ => rfl) (fun _ => rfl)
    (List.replicate 16 0) rfl

/-- Claim C2: the spec states that unpad(pad(x)) == x for all plaintext
lengths 0..48, with unpad dropping the leading byte when the pad amount is
0.  The code FAILS this at length 15: pad_string produces a buffer with pad
byte 0 and unpad_string returns that buffer unchanged, keeping the leading
zero byte. -/
theorem C2_unpad_pad_keeps_marker_at_15 :
    SidleEncryption.unpad_string (SidleEncryption.pad_string (List.replicate 15 97)) =
      .ok (0 :: List.replicate 15 97) ∧
    (0 :: List.replicate 15 97) ≠ List.replicate 15 97 :=
  ⟨rfl, by decide⟩

set_option maxRecDepth 100000

/-- Claim C3: the spec states that set(k, v) followed by a reopen and
get(k) returns v for every key and value.  The code FAILS this when the
UTF-8 length of v is 15 mod 16: inserting key "ke" with the 15-byte value
"aaaaaaaaaaaaaaa" into an empty file and reading the key back through a
fresh handle returns the value with a spurious leading zero byte (shown
with the identity cipher and zero IVs; the per-field unpad defect is
IV-independent by C1). -/
theorem C3_persist_roundtrip_prefixes_value :
    (match Sidle.insert id id (List.replicate 16 0) (List.replicate 16 0)
        (List.replicate 16 0) 5 [] [107, 101] (List.replicate 15 97) with
     | .ok file => Sidle.getItem id 5 file [107, 101]
     | .error e => .error e) = .ok (some (0 :: List.replicate 15 97)) ∧
    (0 :: List.replicate 15 97) ≠ List.replicate 15 97 :=
  ⟨rfl, by decide⟩

/-- Claim C4: the spec states that set(k, v) leaves exactly one entry whose
decrypted key matches k, removing later duplicates.  The code FAILS this
for encrypted duplicates: the duplicate filter compares x[0].lower() (the
ciphertext bytes) with the lowered key string, a bytes-versus-str
comparison that is never equal, so on a store holding two entries whose
keys both decrypt to "k", set("k", "new") replaces the first and KEEPS the
second, whose key still decrypts to "k". -/
theorem C4_set_keeps_encrypted_duplicate (E D : List Nat → List Nat)
    (hED : ∀ b, D (E b) = b) (hlen : ∀ b, (E b).length = b.length)
    (iv1 iv2 iv3 iv4 iv5 iv6 : List Nat) (hiv1 : iv1.length = 16) (hiv3 : iv3.length = 16) :
    SidleData.set E D iv5 iv6
      [(.bytes (SidleEncryption.encrypt E iv1 [107]), .bytes (SidleEncryption.encrypt E iv2 [97])),
       (.bytes (SidleEncryption.encrypt E iv3 [107]), .bytes (SidleEncryption.encrypt E iv4 [98]))]
      [107] [110, 101, 119] =
      .ok [(.bytes (SidleEncryption.encrypt E iv5 [107]),
            .bytes (SidleEncryption.encrypt E iv6 [110, 101, 119])),
           (.bytes (SidleEncryption.encrypt E iv3 [107]),
            .bytes (SidleEncryption.encrypt E iv4 [98]))] ∧
    SidleEncryption.decrypt D (SidleEncryption.encrypt E iv3 [107]) = .ok [107] := by
  have h1 : decLit D (PyLit.bytes (SidleEncryption.encrypt E iv1 [107])) = .ok [107] := by
    rw [decLit_encrypt E D hED hlen iv1 hiv1]; rfl
  have hfind : findKeyIdx D (asciiLower [107])
      [(PyLit.bytes (SidleEncryption.encrypt E iv1 [107]),
        PyLit.bytes (SidleEncryption.encrypt E iv2 [97])),
       (PyLit.bytes (SidleEncryption.encrypt E iv3 [107]),
        PyLit.bytes (SidleEncryption.encrypt E iv4 [98]))] = .ok (some 0) := by
    unfold findKeyIdx
    rw [h1]; rfl
  constructor
  · unfold SidleData.set
    rw [hfind]; rfl
  · rw [decrypt_encrypt E D hED hlen iv3 hiv3]; rfl

/-- Witness for C4 at the identity block cipher and zero IVs. -/
theorem C4_set_keeps_encrypted_duplicate_witness :
    SidleData.set id id (List.replicate 16 0) (List.replicate 16 0)
      [(.bytes (SidleEncryption.encrypt id (List.replicate 16 0) [107]),
        .bytes (SidleEncryption.encrypt id (List.replicate 16 0) [97])),
       (.bytes (SidleEncryption.encrypt id (List.replicate 16 0) [107]),
        .bytes (SidleEncryption.encrypt id (List.replicate 16 0) [98]))]
      [107] [110, 101, 119] =
      .ok [(.bytes (SidleEncryption.encrypt id (List.replicate 16 0) [107]),
            .bytes (SidleEncryption.encrypt id (List.replicate 16 0) [110, 101, 119])),
           (.bytes (SidleEncryption.encrypt id (List.replicate 16 0) [107]),
            .bytes (SidleEncryption.encrypt id (List.replicate 16 0) [98]))] ∧
    SidleEncryption.decrypt id (SidleEncryption.encrypt id (List.replicate 16 0) [107]) =
      .ok [107] :=
  C4_set_keeps_encrypted_duplicate id id (fun _ => rfl) (fun _ => rfl)
    (List.replicate 16 0) (List.replicate 16 0) (List.replicate 16 0)
    (List.replicate 16 0) (List.replicate 16 0) (List.replicate 16 0) rfl rfl

/-- Claim C5: the spec states that remove(k) deletes the matching entries
and leaves every non-matching entry unchanged (same ciphertext pair), and
that it is a no-op when nothing matches.  The code FAILS this: __delitem__
re-assigns self._list to the list of DECRYPTED pairs, so even a remove of
the absent key "zzz" on a store holding one encrypted entry ("a", "1")
replaces the ciphertext pair by the plaintext str pair. -/
theorem C5_remove_stores_decrypted_pairs (E D : List Nat → List Nat)
    (hED : ∀ b, D (E b) = b) (hlen : ∀ b, (E b).length = b.length)
    (iv1 iv2 : List Nat) (hiv1 : iv1.length = 16) (hiv2 : iv2.length = 16) :
    SidleData.remove D
      [(.bytes (SidleEncryption.encrypt E iv1 [97]), .bytes (SidleEncryption.encrypt E iv2 [49]))]
      [122, 122, 122] =
      .ok [(.str [97], .str [49])] ∧
    (PyLit.str [97], PyLit.str [49]) ≠
      (PyLit.bytes (SidleEncryption.encrypt E iv1 [97]),
       PyLit.bytes (SidleEncryption.encrypt E iv2 [49])) := by
  have ha : decLit D (PyLit.bytes (SidleEncryption.encrypt E iv1 [97])) = .ok [97] := by
    rw [decLit_encrypt E D hED hlen iv1 hiv1]; rfl
  have hb : decLit D (PyLit.bytes (SidleEncryption.encrypt E iv2 [49])) = .ok [49] := by
    rw [decLit_encrypt E D hED hlen iv2 hiv2]; rfl
  constructor
  · unfold SidleData.remove decPairs
    rw [ha, hb]; rfl
  · intro h
    exact PyLit.noConfusion (congrArg Prod.fst h)

/-- Witness for C5 at the identity block cipher and zero IVs. -/
theorem C5_remove_stores_decrypted_pairs_witness :
    SidleData.remove id
      [(.bytes (SidleEncryption.encrypt id (List.replicate 16 0) [97]),
        .bytes (SidleEncryption.encrypt id (List.replicate 16 0) [49]))]
      [122, 122, 122] =
      .ok [(.str [97], .str [49])] ∧
    (PyLit.str [97], PyLit.str [49]) ≠
      (PyLit.bytes (SidleEncryption.encrypt id (List.replicate 16 0) [97]),
       PyLit.bytes (SidleEncryption.encrypt id (List.replicate 16 0) [49])) :=
  C5_remove_stores_decrypted_pairs id id (fun _ => rfl) (fun _ => rfl)
    (List.replicate 16 0) (List.replicate 16 0) rfl rfl

/-- Claim C6, counterexample: the spec states that a decrypted payload that
is not a sequence of 2-tuples of byte strings makes deserialization fail.
The code accepts it: a blob that decrypts to the text "42" (here under the
identity cipher with a zero IV) is parsed by ast.literal_eval to the int 42
and load succeeds, storing 42 as the record list. -/
theorem C6_load_accepts_bare_int :
    SidleData.load id 3 (List.replicate 16 0 ++ [13, 52, 50] ++ List.replicate 13 0) =
      .ok (.int 42) := rfl

/-- Claim C6, amended: SidleData.load performs no shape validation at all:
whenever the decrypted payload is a non-empty text that ast.literal_eval
parses to ANY literal, load succeeds and stores that literal as the record
list; only UTF-8 decoding failures and literal-parse failures are
rejected. -/
theorem C6_load_has_no_shape_validation (D : List Nat → List Nat) (fuel : Nat)
    (data s : List Nat) (lit : PyLit)
    (hdec : SidleEncryption.decrypt D data = .ok s) (hne : s ≠ [])
    (hparse : literal_eval s = some lit) :
    SidleData.load D fuel data = .ok lit := by
  obtain ⟨c, rest, rfl⟩ : ∃ c rest, s = c :: rest := by
    cases s with
    | nil => exact absurd rfl hne
    | cons c rest => exact ⟨c, rest, rfl⟩
  cases fuel with
  | zero => rw [SidleData.load, hdec]; simp only [List.isEmpty_cons, if_neg Bool.false_ne_true,
      hparse]
  | succ f => rw [SidleData.load, hdec]; simp only [List.isEmpty_cons, if_neg Bool.false_ne_true,
      hparse]

/-- Witness for C6 at the identity cipher, zero IV, and the payload that
decrypts to the text "42". -/
theorem C6_load_has_no_shape_validation_witness :
    SidleData.load id 7 (List.replicate 16 0 ++ [13, 52, 50] ++ List.replicate 13 0) =
      .ok (.int 42) :=
  C6_load_has_no_shape_validation id 7 _ [52, 50] (.int 42) rfl (by decide) rfl

/-- Claim C7: the spec states that add("tag", "a"); add("tag", "b") leaves
two entries both decrypting to "tag" and that remove("tag") then deletes
both.  The code FAILS this: add appends its arguments UNENCRYPTED, so
keys() returns the two raw strings "tag" (nothing to decrypt), and
remove("tag") raises a TypeError when it tries to decrypt the raw str
entries instead of deleting them. -/
theorem C7_add_appends_raw_and_remove_fails (D : List Nat → List Nat) :
    SidleData.keys (SidleData.add (SidleData.add [] (.str [116, 97, 103]) (.str [97]))
        (.str [116, 97, 103]) (.str [98])) =
      [.str [116, 97, 103], .str [116, 97, 103]] ∧
    SidleData.remove D (SidleData.add (SidleData.add [] (.str [116, 97, 103]) (.str [97]))
        (.str [116, 97, 103]) (.str [98])) [116, 97, 103] = .error .typeErr :=
  ⟨rfl, rfl⟩

/-- Claim C8: the spec states that contains(k) is true exactly when get(k)
succeeds and false for a key with no matching entry.  The code FAILS this:
__getitem__ with its default error=False returns None instead of raising
KeyError, so __contains__ returns True even on the empty store, where
getitem finds nothing. -/
theorem C8_contains_true_without_match (D : List Nat → List Nat) (key : List Nat) :
    SidleData.contains D [] key = .ok true ∧
    SidleData.getitem D [] key = .ok none :=
  ⟨rfl, rfl⟩

/-- Claim C9, counterexample: the claim states that copy() returns a store
with an empty entry list.  The code raises instead: on a concrete store
with password "pw" and one entry, copy passes the entry list as the
password and SidleEncryption calls convert_bytes on it, where
bytes(list, encoding=...) raises TypeError. -/
theorem C9_copy_raises_type_error_concrete :
    SidleData.copy { password := .strPw [112, 119],
                     entries := [(PyLit.str [97], PyLit.str [98])] } = .error .typeErr := rfl

/-- Claim C9, amended: copy passes the entry list as the constructor
password argument with no data argument, and the constructor then raises
TypeError from convert_bytes for every store, so copy never returns a store
at all; in particular a copy never carries over the original entries. -/
theorem C9_copy_always_raises (s : SidleDataObj) :
    SidleData.copy s = .error .typeErr := rfl

/-- Claim C10: SidleData.load never turns a blob whose decryption is the
empty text into an empty store: the recursive retry bottoms out in a
RecursionError at fuel 0, and every level above it fails parsing the empty
text with a SyntaxError, so load always reports an error. -/
theorem C10_load_empty_decrypt_never_ok (D : List Nat → List Nat) (fuel : Nat)
    (data : List Nat) (hdec : SidleEncryption.decrypt D data = .ok []) :
    ∃ e, SidleData.load D fuel data = .error e := by
  cases fuel with
  | zero => exact ⟨.recursion, by rw [SidleData.load, hdec]; rfl⟩
  | succ f =>
    cases h : SidleData.load D f data with
    | ok lit => exact ⟨.parseErr, by rw [SidleData.load, hdec, h]; rfl⟩
    | error e =>
      cases e with
      | password => exact ⟨.password, by rw [SidleData.load, hdec, h]; rfl⟩
      | typeErr => exact ⟨.typeErr, by rw [SidleData.load, hdec, h]; rfl⟩
      | valueErr => exact ⟨.valueErr, by rw [SidleData.load, hdec, h]; rfl⟩
      | indexErr => exact ⟨.indexErr, by rw [SidleData.load, hdec, h]; rfl⟩
      | parseErr => exact ⟨.parseErr, by rw [SidleData.load, hdec, h]; rfl⟩
      | recursion => exact ⟨.parseErr, by rw [SidleData.load, hdec, h]; rfl⟩

/-- Witness for C10 at the identity cipher with a blob that decrypts to the
empty text. -/
theorem C10_load_empty_decrypt_never_ok_witness :
    ∃ e, SidleData.load id 3 (List.replicate 16 0 ++ (15 :: List.replicate 15 0)) =
      .error e :=
  C10_load_empty_decrypt_never_ok id 3 _ rfl
